import Mathlib

/-!
# Verification of the `@svelte-put/modal` store

Shallow embedding of the modal-dialog stack manager of `svelte-put`
(`packages/misc/modal`).  The type layer (`ResolveTrigger`,
`ModalComponentBaseResolved`, `PushedModal`, `ModalPushOutput`, …) is embedded
from `src/packages/misc/modal/src/lib/modal.types.ts`.  The store itself
(`createModalStore` with `push` / `pop` / `resolveEntry`) is not among the
provided sources, so it is modelled from the specification (section 4 of the
spec); each such definition carries a `Modelled from the spec:` doc comment.

Svelte components, props and promises are opaque to the store, so they are
modelled by opaque tokens: a component reference is a `Nat`, props are a
key/value list, and a promise object is identified by its index in the
store-wide broker arena (two calls return "the same promise object" iff they
return the same index).
-/

namespace SveltePutModal

/-- `ResolveTrigger` from `modal.types.ts` line 28:
`'backdrop' | 'x' | 'escape' | 'clickoutside' | 'pop' | 'custom'`. -/
inductive ResolveTrigger
  | backdrop
  | x
  | escape
  | clickoutside
  | pop
  | custom
deriving DecidableEq, Repr, Fintype

/-- The string literal of each `ResolveTrigger` member, exactly as written in
the union type of `modal.types.ts`. -/
def ResolveTrigger.toTag : ResolveTrigger → String
  | .backdrop => "backdrop"
  | .x => "x"
  | .escape => "escape"
  | .clickoutside => "clickoutside"
  | .pop => "pop"
  | .custom => "custom"

/-- The six members of the `ResolveTrigger` union, in source order. -/
def ResolveTrigger.all : List ResolveTrigger :=
  [.backdrop, .x, .escape, .clickoutside, .pop, .custom]

/-- `ModalComponentBaseResolved` (and its application-defined extensions,
`ExtendedModalEvents`): a resolution payload always carries a `trigger` field
of type `ResolveTrigger`; extended payloads add extra fields, modelled as an
opaque key/value list. -/
structure Resolved where
  trigger : ResolveTrigger
  extra : List (String × String)
deriving DecidableEq, Repr

/-- Modelled from the spec: `ResolutionBroker` (spec section 4.2), the
per-entry settle-once promise wrapper of `modal.ts` (not in the sources).
Either still pending, or settled with its final resolution value. -/
inductive Broker
  | pending
  | settled (value : Resolved)
deriving DecidableEq, Repr

/-- Modelled from the spec: `settle` is idempotent — the first call stores the
value and fulfills the promise; subsequent calls are ignored. -/
def Broker.settle : Broker → Resolved → Broker
  | .pending, v => .settled v
  | .settled v0, _ => .settled v0

/-- `PushedModal` from `modal.types.ts` lines 75–82: one active stack entry.
`component` and `props` are opaque to the store.  `brokerRef` is the entry's
resolution broker — the index of its promise in the store-wide broker arena. -/
structure ModalEntry where
  id : String
  component : Nat
  props : List (String × String)
  brokerRef : Nat
deriving DecidableEq, Repr

/-- `ModalPushInput` from `modal.types.ts` lines 89–91: the `push` descriptor,
with `component` required and `id` optional (a bare component reference is the
case `id = none, props = []`). -/
structure ModalPushInput where
  id : Option String
  component : Nat
  props : List (String × String)
deriving DecidableEq, Repr

/-- `ModalPushOutput` from `modal.types.ts` lines 97–128: the handle returned
by `push`, holding the entry's id and the `resolve` accessor.  `promiseRef`
identifies the broker's promise object. -/
structure ModalPushOutput where
  id : String
  promiseRef : Nat
deriving DecidableEq, Repr

/-- The `resolve()` accessor of a push handle.  Each invocation (numbered by
`invocation`) returns the identity of the promise it hands back; per the spec
it returns the broker's promise, not a fresh promise per call. -/
def ModalPushOutput.resolve (o : ModalPushOutput) (_invocation : Nat) : Nat :=
  o.promiseRef

/-- Modelled from the spec: the state owned by `createModalStore` (not in the
sources) — the ordered stack of active entries, the arena of every broker ever
created (a settled broker outlives its entry: the handle still holds its
promise), and the fresh-id counter backing UUID generation. -/
structure ModalStore where
  modals : List ModalEntry
  brokers : List Broker
  nextAuto : Nat
deriving DecidableEq, Repr

/-- Modelled from the spec: `createModalStore()` — a fresh store with an empty
stack. -/
def createModalStore : ModalStore := ⟨[], [], 0⟩

/-- Modelled from the spec: when `id` is omitted, `push` "generates a fresh
UUID-like value".  The generator is modelled as an injective encoding of the
store's fresh counter into a `String`. -/
def genId (n : Nat) : String := String.mk ('m' :: List.replicate n '0')

/-- Modelled from the spec: the default resolution value used by `pop` when no
payload is supplied, tagged `trigger: 'pop'`. -/
def defaultPopResolved : Resolved := ⟨.pop, []⟩

/-- Modelled from the spec: `push(descriptor)` — assign identity (generate a
fresh one if omitted), create a fresh unsettled broker, append the entry to
the stack, and return the `{id, resolve}` handle whose promise is the new
broker's. -/
def ModalStore.push (s : ModalStore) (input : ModalPushInput) :
    ModalPushOutput × ModalStore :=
  match input.id with
  | some i =>
      (⟨i, s.brokers.length⟩,
       ⟨s.modals ++ [⟨i, input.component, input.props, s.brokers.length⟩],
        s.brokers ++ [.pending], s.nextAuto⟩)
  | none =>
      (⟨genId s.nextAuto, s.brokers.length⟩,
       ⟨s.modals ++ [⟨genId s.nextAuto, input.component, input.props, s.brokers.length⟩],
        s.brokers ++ [.pending], s.nextAuto + 1⟩)

/-- Remove the first entry of the stack carrying the given id, returning it
together with the remaining stack (`(none, stack)` when no entry matches). -/
def popFirst : List ModalEntry → String → Option ModalEntry × List ModalEntry
  | [], _ => (none, [])
  | m :: rest, i =>
    if m.id = i then (some m, rest)
    else
      let r := popFirst rest i
      (r.1, m :: r.2)

/-- Settle the broker at index `r` of the arena (no-op on an out-of-range
index; idempotent on an already-settled broker via `Broker.settle`). -/
def settleBroker (bs : List Broker) (r : Nat) (v : Resolved) : List Broker :=
  bs.set r ((bs.getD r .pending).settle v)

/-- Modelled from the spec: `pop(id, payload?)` — if the id is not in the
active stack, a silent no-op; otherwise remove the entry from the stack and
settle its broker with the payload (default value tagged `trigger: 'pop'` when
none is supplied). -/
def ModalStore.pop (s : ModalStore) (i : String) (payload : Option Resolved) :
    ModalStore :=
  match popFirst s.modals i with
  | (none, _) => s
  | (some e, rest) =>
      ⟨rest, settleBroker s.brokers e.brokerRef (payload.getD defaultPopResolved),
       s.nextAuto⟩

/-- Modelled from the spec: `resolveEntry(id, resolvedValue)` — same removal
and settlement semantics as `pop`, with the caller-supplied payload. -/
def ModalStore.resolveEntry (s : ModalStore) (i : String) (v : Resolved) :
    ModalStore :=
  s.pop i (some v)

/-- One store operation of the public mutating API. -/
inductive Op
  | push (input : ModalPushInput)
  | pop (i : String) (payload : Option Resolved)
  | resolveEntry (i : String) (v : Resolved)
deriving DecidableEq, Repr

/-- Apply one operation to the store (the handle returned by `push` is not
part of the store state). -/
def applyOp (s : ModalStore) : Op → ModalStore
  | .push input => (s.push input).2
  | .pop i p => s.pop i p
  | .resolveEntry i v => s.resolveEntry i v

/-- Run a sequence of operations, left to right. -/
def run (s : ModalStore) (ops : List Op) : ModalStore := ops.foldl applyOp s

/-! ## Basic lemmas about the model -/

theorem genId_injective : Function.Injective genId := by
  intro a b h
  have hd : ('m' :: List.replicate a '0') = ('m' :: List.replicate b '0') :=
    congrArg String.data h
  have hlen := congrArg List.length hd
  simpa using hlen

theorem popFirst_of_not_mem {l : List ModalEntry} {i : String}
    (h : ∀ e ∈ l, e.id ≠ i) : popFirst l i = (none, l) := by
  induction l with
  | nil => rfl
  | cons m rest ih =>
    have hm : m.id ≠ i := h m (List.mem_cons_self m rest)
    have hrest : ∀ e ∈ rest, e.id ≠ i := fun e he => h e (List.mem_cons_of_mem m he)
    simp [popFirst, hm, ih hrest]

theorem popFirst_some {l : List ModalEntry} {i : String} {e : ModalEntry}
    {rest : List ModalEntry} (h : popFirst l i = (some e, rest)) :
    ∃ l₁ l₂, l = l₁ ++ e :: l₂ ∧ rest = l₁ ++ l₂ ∧
      (∀ e' ∈ l₁, e'.id ≠ i) ∧ e.id = i := by
  induction l generalizing rest with
  | nil => simp [popFirst] at h
  | cons m tl ih =>
    by_cases hm : m.id = i
    · rw [show popFirst (m :: tl) i = (some m, tl) by simp [popFirst, hm]] at h
      rw [Prod.mk.injEq] at h
      obtain ⟨he, hrest⟩ := h
      obtain rfl : m = e := Option.some.inj he
      exact ⟨[], tl, rfl, hrest.symm, by simp, hm⟩
    · rcases hp : popFirst tl i with ⟨found, rest'⟩
      simp only [popFirst, if_neg hm, hp] at h
      rw [Prod.mk.injEq] at h
      obtain ⟨he, hrest⟩ := h
      subst he
      obtain ⟨l₁, l₂, hl, hr, hnone, hid⟩ := ih hp
      exact ⟨m :: l₁, l₂, by simp [hl], by simp [← hrest, hr],
        by simpa [hm] using hnone, hid⟩

theorem popFirst_rest_sublist {l : List ModalEntry} {i : String} {e : ModalEntry}
    {rest : List ModalEntry} (h : popFirst l i = (some e, rest)) :
    List.Sublist rest l := by
  obtain ⟨l₁, l₂, hl, hr, -, -⟩ := popFirst_some h
  rw [hl, hr]
  exact (List.sublist_cons_self e l₂).append_left l₁

/-! ## Broker arena lemmas -/

theorem settleBroker_getElem?_ne (bs : List Broker) {r r' : Nat} (v : Resolved)
    (h : r' ≠ r) : (settleBroker bs r v)[r']? = bs[r']? :=
  List.getElem?_set_ne (Ne.symm h)

theorem settleBroker_pending {bs : List Broker} {r : Nat} (v : Resolved)
    (h : bs[r]? = some Broker.pending) :
    (settleBroker bs r v)[r]? = some (Broker.settled v) := by
  have hlt : r < bs.length := (List.getElem?_eq_some.mp h).1
  simp [settleBroker, List.getD_eq_getElem?_getD, h, Broker.settle,
    List.getElem?_set_self hlt]

theorem settleBroker_settled {bs : List Broker} {r : Nat} {v : Resolved}
    (w : Resolved) (h : bs[r]? = some (Broker.settled v)) :
    (settleBroker bs r w)[r]? = some (Broker.settled v) := by
  have hlt : r < bs.length := (List.getElem?_eq_some.mp h).1
  simp [settleBroker, List.getD_eq_getElem?_getD, h, Broker.settle,
    List.getElem?_set_self hlt]

theorem applyOp_settled {s : ModalStore} {r : Nat} {v : Resolved}
    (h : s.brokers[r]? = some (Broker.settled v)) (op : Op) :
    (applyOp s op).brokers[r]? = some (Broker.settled v) := by
  have hlt : r < s.brokers.length := (List.getElem?_eq_some.mp h).1
  cases op with
  | push input =>
    cases hinp : input.id <;>
      simpa [applyOp, ModalStore.push, hinp, List.getElem?_append_left hlt] using h
  | pop i p =>
    simp only [applyOp, ModalStore.pop]
    cases hp : popFirst s.modals i with
    | mk found rest =>
      cases found with
      | none => simpa using h
      | some e =>
        by_cases hr : r = e.brokerRef
        · subst hr
          simpa using settleBroker_settled (p.getD defaultPopResolved) h
        · simpa [settleBroker_getElem?_ne _ _ hr] using h
  | resolveEntry i v' =>
    simp only [applyOp, ModalStore.resolveEntry, ModalStore.pop]
    cases hp : popFirst s.modals i with
    | mk found rest =>
      cases found with
      | none => simpa using h
      | some e =>
        by_cases hr : r = e.brokerRef
        · subst hr
          simpa using settleBroker_settled v' h
        · simpa [settleBroker_getElem?_ne _ _ hr] using h

theorem run_settled {s : ModalStore} {r : Nat} {v : Resolved}
    (h : s.brokers[r]? = some (Broker.settled v)) (ops : List Op) :
    (run s ops).brokers[r]? = some (Broker.settled v) := by
  induction ops generalizing s with
  | nil => exact h
  | cons op rest ih => exact ih (applyOp_settled h op)

/-! ## Store invariants -/

/-- The stack/broker coupling invariant: every active entry points at a
pending broker, and distinct active entries own distinct brokers. -/
def BrokerInv (s : ModalStore) : Prop :=
  (∀ e ∈ s.modals, s.brokers[e.brokerRef]? = some Broker.pending) ∧
  (s.modals.map (fun e => e.brokerRef)).Nodup

instance (s : ModalStore) : Decidable (BrokerInv s) := by
  unfold BrokerInv
  infer_instance

theorem brokerInv_append {s : ModalStore} (h : BrokerInv s) (i : String)
    (comp : Nat) (props : List (String × String)) (na : Nat) :
    BrokerInv ⟨s.modals ++ [⟨i, comp, props, s.brokers.length⟩],
      s.brokers ++ [Broker.pending], na⟩ := by
  obtain ⟨hpend, hnd⟩ := h
  have hlt : ∀ e ∈ s.modals, e.brokerRef < s.brokers.length := fun e he =>
    (List.getElem?_eq_some.mp (hpend e he)).1
  refine ⟨?_, ?_⟩
  · intro e he
    rcases List.mem_append.mp he with hmem | hmem
    · show (s.brokers ++ [Broker.pending])[e.brokerRef]? = some Broker.pending
      rw [List.getElem?_append_left (hlt e hmem)]
      exact hpend e hmem
    · obtain rfl : e = (⟨i, comp, props, s.brokers.length⟩ : ModalEntry) :=
        List.mem_singleton.mp hmem
      exact List.getElem?_concat_length s.brokers Broker.pending
  · show ((s.modals ++ [(⟨i, comp, props, s.brokers.length⟩ : ModalEntry)]).map
      (fun e => e.brokerRef)).Nodup
    rw [List.map_append]
    refine List.Nodup.append hnd (by simp) ?_
    intro r hr hr'
    have hre : r = s.brokers.length := by simpa using hr'
    subst hre
    obtain ⟨e, hmem, hfe⟩ := List.mem_map.mp hr
    exact absurd (hfe ▸ hlt e hmem) (lt_irrefl _)

theorem brokerInv_push {s : ModalStore} (h : BrokerInv s) (input : ModalPushInput) :
    BrokerInv (s.push input).2 := by
  cases hinp : input.id with
  | some i =>
    have key := brokerInv_append h i input.component input.props s.nextAuto
    simpa only [ModalStore.push, hinp] using key
  | none =>
    have key := brokerInv_append h (genId s.nextAuto) input.component input.props
      (s.nextAuto + 1)
    simpa only [ModalStore.push, hinp] using key

theorem brokerInv_pop {s : ModalStore} (h : BrokerInv s) (i : String)
    (p : Option Resolved) : BrokerInv (s.pop i p) := by
  obtain ⟨hpend, hnd⟩ := h
  unfold ModalStore.pop
  rcases hp : popFirst s.modals i with ⟨found, rest⟩
  cases found with
  | none => exact ⟨hpend, hnd⟩
  | some e =>
    obtain ⟨l₁, l₂, hl, hr, -, -⟩ := popFirst_some hp
    have hsub : List.Sublist rest s.modals := popFirst_rest_sublist hp
    have hmid : (l₁.map (fun e => e.brokerRef) ++ e.brokerRef ::
        l₂.map (fun e => e.brokerRef)).Nodup := by
      rw [hl] at hnd
      simpa using hnd
    obtain ⟨hnotmem, hndrest⟩ := List.nodup_cons.mp (List.nodup_middle.mp hmid)
    have hrestmap : rest.map (fun e => e.brokerRef) =
        l₁.map (fun e => e.brokerRef) ++ l₂.map (fun e => e.brokerRef) := by
      rw [hr, List.map_append]
    refine ⟨?_, ?_⟩
    · intro e' he'
      have he'mem : e' ∈ s.modals := hsub.subset he'
      have hne : e'.brokerRef ≠ e.brokerRef := by
        intro hc
        refine hnotmem ?_
        rw [← hc, ← hrestmap]
        exact List.mem_map.mpr ⟨e', he', rfl⟩
      show (settleBroker s.brokers e.brokerRef (p.getD defaultPopResolved))[e'.brokerRef]? =
        some Broker.pending
      rw [settleBroker_getElem?_ne _ _ hne]
      exact hpend e' he'mem
    · show (rest.map (fun e => e.brokerRef)).Nodup
      rw [hrestmap]
      exact hndrest

theorem brokerInv_applyOp {s : ModalStore} (h : BrokerInv s) (op : Op) :
    BrokerInv (applyOp s op) := by
  cases op with
  | push input => exact brokerInv_push h input
  | pop i p => exact brokerInv_pop h i p
  | resolveEntry i v => exact brokerInv_pop h i (some v)

theorem brokerInv_run {s : ModalStore} (h : BrokerInv s) (ops : List Op) :
    BrokerInv (run s ops) := by
  induction ops generalizing s with
  | nil => exact h
  | cons op rest ih => exact ih (brokerInv_applyOp h op)

theorem brokerInv_createModalStore : BrokerInv createModalStore := by
  refine ⟨?_, ?_⟩ <;> simp [createModalStore]

/-- `true` when the operation is not a push with an explicitly supplied id:
pushes with auto-generated ids, and all pops/resolves. -/
def Op.autoId : Op → Bool
  | .push input => decide (input.id = none)
  | .pop _ _ => true
  | .resolveEntry _ _ => true

/-- Invariant backing id uniqueness for auto-generated ids: every active
entry's id was produced by the fresh-id generator at an index below the
counter, and active ids are pairwise distinct. -/
def AutoInv (s : ModalStore) : Prop :=
  (∀ e ∈ s.modals, ∃ k, k < s.nextAuto ∧ e.id = genId k) ∧
  (s.modals.map (fun e => e.id)).Nodup

theorem autoInv_push_none {s : ModalStore} (h : AutoInv s) (input : ModalPushInput)
    (hinp : input.id = none) : AutoInv (s.push input).2 := by
  obtain ⟨hgen, hnd⟩ := h
  simp only [ModalStore.push, hinp]
  refine ⟨?_, ?_⟩
  · intro e he
    rcases List.mem_append.mp he with hmem | hmem
    · obtain ⟨k, hk, hke⟩ := hgen e hmem
      exact ⟨k, Nat.lt_succ_of_lt hk, hke⟩
    · obtain rfl : e = (⟨genId s.nextAuto, input.component, input.props,
          s.brokers.length⟩ : ModalEntry) := List.mem_singleton.mp hmem
      exact ⟨s.nextAuto, Nat.lt_succ_self _, rfl⟩
  · show ((s.modals ++ [(⟨genId s.nextAuto, input.component, input.props,
      s.brokers.length⟩ : ModalEntry)]).map (fun e => e.id)).Nodup
    rw [List.map_append]
    refine List.Nodup.append hnd (by simp) ?_
    intro a ha ha'
    have haeq : a = genId s.nextAuto := by simpa using ha'
    subst haeq
    obtain ⟨e, hmem, hfe⟩ := List.mem_map.mp ha
    obtain ⟨k, hk, hke⟩ := hgen e hmem
    have hgg : genId k = genId s.nextAuto := by rw [← hke, hfe]
    have := genId_injective hgg
    omega

theorem autoInv_pop {s : ModalStore} (h : AutoInv s) (i : String)
    (p : Option Resolved) : AutoInv (s.pop i p) := by
  obtain ⟨hgen, hnd⟩ := h
  unfold ModalStore.pop
  rcases hp : popFirst s.modals i with ⟨found, rest⟩
  cases found with
  | none => exact ⟨hgen, hnd⟩
  | some e =>
    have hsub : List.Sublist rest s.modals := popFirst_rest_sublist hp
    exact ⟨fun e' he' => hgen e' (hsub.subset he'),
      List.Nodup.sublist (hsub.map _) hnd⟩

theorem autoInv_run {s : ModalStore} (h : AutoInv s) (ops : List Op)
    (hauto : ∀ op ∈ ops, op.autoId = true) : AutoInv (run s ops) := by
  induction ops generalizing s with
  | nil => exact h
  | cons op rest ih =>
    have hop : AutoInv (applyOp s op) := by
      cases op with
      | push input =>
        have hnone : input.id = none := of_decide_eq_true
          (hauto (Op.push input) (List.mem_cons_self _ _))
        exact autoInv_push_none h input hnone
      | pop i p => exact autoInv_pop h i p
      | resolveEntry i v => exact autoInv_pop h i (some v)
    exact ih hop (fun op' hmem => hauto op' (List.mem_cons_of_mem _ hmem))

theorem autoInv_createModalStore : AutoInv createModalStore := by
  refine ⟨?_, ?_⟩ <;> simp [createModalStore]

/-! ## Claim theorems -/

/-- C1: calling `pop`/`resolveEntry` on the same id any number of times
settles the broker exactly once, with the value of the first call: after the
first `pop` with payload `p`, the broker holds `p` (or the default `pop`-tagged
value) and keeps exactly that value under every further operation sequence;
moreover `settle` on an already-settled broker is a no-op that never changes
the resolved value. -/
theorem claim1_settle_at_most_once (s : ModalStore) (i : String)
    (p : Option Resolved) (e : ModalEntry) (rest : List ModalEntry)
    (hfind : popFirst s.modals i = (some e, rest))
    (hpend : s.brokers[e.brokerRef]? = some Broker.pending) (ops : List Op) :
    (run (s.pop i p) ops).brokers[e.brokerRef]? =
      some (Broker.settled (p.getD defaultPopResolved)) ∧
    (∀ v w : Resolved, (Broker.settled v).settle w = Broker.settled v) := by
  refine ⟨?_, fun v w => rfl⟩
  have hpop : (s.pop i p).brokers[e.brokerRef]? =
      some (Broker.settled (p.getD defaultPopResolved)) := by
    simp only [ModalStore.pop, hfind]
    exact settleBroker_pending _ hpend
  exact run_settled hpop ops

/-- C2: in every state reachable from the fresh store, every entry in the
stack has a pending (unsettled) broker; equivalently a settled broker never
belongs to an entry still present in the stack. -/
theorem claim2_active_entries_unsettled (ops : List Op) :
    (∀ e ∈ (run createModalStore ops).modals,
        (run createModalStore ops).brokers[e.brokerRef]? = some Broker.pending) ∧
    (∀ e ∈ (run createModalStore ops).modals, ∀ v : Resolved,
        (run createModalStore ops).brokers[e.brokerRef]? ≠
          some (Broker.settled v)) := by
  have h := brokerInv_run brokerInv_createModalStore ops
  refine ⟨h.1, ?_⟩
  intro e he v hc
  rw [h.1 e he] at hc
  simp at hc

/-- C3: for an id in the active stack (with its broker pending and the id
held by a single entry), `pop(id, payload)` settles the broker with exactly
the supplied payload (with the default `trigger: 'pop'` value when none is
given), removes the entry, and afterwards no entry with that id can be read
from the stack; `resolveEntry(id, rv)` settles with exactly `rv`. -/
theorem claim3_pop_settles_with_payload (s : ModalStore) (i : String)
    (p : Option Resolved) (rv : Resolved) (e : ModalEntry)
    (rest : List ModalEntry) (hfind : popFirst s.modals i = (some e, rest))
    (hpend : s.brokers[e.brokerRef]? = some Broker.pending)
    (huniq : s.modals.countP (fun m => decide (m.id = i)) ≤ 1) :
    ((s.pop i p).brokers[e.brokerRef]? =
        some (Broker.settled (p.getD defaultPopResolved))) ∧
    (∀ e' ∈ (s.pop i p).modals, e'.id ≠ i) ∧
    ((s.resolveEntry i rv).brokers[e.brokerRef]? = some (Broker.settled rv)) := by
  obtain ⟨l₁, l₂, hl, hr, hl₁, hid⟩ := popFirst_some hfind
  have hcl₁ : l₁.countP (fun m => decide (m.id = i)) = 0 :=
    List.countP_eq_zero.mpr (fun m hm => by simpa using hl₁ m hm)
  have hcl₂ : l₂.countP (fun m => decide (m.id = i)) = 0 := by
    have hcons : List.countP (fun m => decide (m.id = i)) (e :: l₂) =
        List.countP (fun m => decide (m.id = i)) l₂ + 1 :=
      List.countP_cons_of_pos _ l₂ (decide_eq_true hid)
    rw [hl, List.countP_append, hcons, hcl₁] at huniq
    omega
  have habs : ∀ e' ∈ rest, e'.id ≠ i := by
    intro e' he'
    rw [hr] at he'
    rcases List.mem_append.mp he' with hm | hm
    · exact hl₁ e' hm
    · intro hc
      have hz := List.countP_eq_zero.mp hcl₂ e' hm
      simp [hc] at hz
  refine ⟨?_, ?_, ?_⟩
  · simp only [ModalStore.pop, hfind]
    exact settleBroker_pending _ hpend
  · intro e' he'
    simp only [ModalStore.pop, hfind] at he'
    exact habs e' he'
  · simp only [ModalStore.resolveEntry, ModalStore.pop, hfind]
    exact settleBroker_pending _ hpend

/-- C4: for every operation sequence in which every push uses an
auto-generated id (id omitted from the descriptor), the ids of the
concurrently-active stack entries are pairwise distinct. -/
theorem claim4_auto_ids_distinct (ops : List Op)
    (hauto : ∀ op ∈ ops, op.autoId = true) :
    ((run createModalStore ops).modals.map (fun e => e.id)).Nodup :=
  (autoInv_run autoInv_createModalStore ops hauto).2

/-- C5 counterexample: the source `ResolveTrigger` member for a detected
outside click is the tag `clickoutside`; the tag `click-outside` claimed by
the spec is not the tag of any trigger. -/
theorem claim5_click_outside_counterexample :
    ResolveTrigger.clickoutside.toTag = "clickoutside" ∧
    ResolveTrigger.clickoutside.toTag ≠ "click-outside" ∧
    "click-outside" ∉ ResolveTrigger.all.map ResolveTrigger.toTag := by
  decide

/-- C5 (amended): the tag attached to every resolution is exactly one of the
six values `backdrop`, `x`, `escape`, `clickoutside`, `pop`, `custom`; each of
these is a valid trigger tag, and no trigger carries the tag `click-outside`. -/
theorem claim5_trigger_tag_set :
    (∀ t : ResolveTrigger,
        t.toTag ∈ ["backdrop", "x", "escape", "clickoutside", "pop", "custom"]) ∧
    (∀ tag ∈ ["backdrop", "x", "escape", "clickoutside", "pop", "custom"],
        ∃ t : ResolveTrigger, t.toTag = tag) ∧
    (∀ t : ResolveTrigger, t.toTag ≠ "click-outside") := by
  decide

/-- C6: `pop`/`resolveEntry` with an id not in the active stack is a silent
no-op — the store (stack, brokers, id counter) is left completely unchanged,
so no broker is settled and nothing throws; popping such an id twice is
likewise a no-op. -/
theorem claim6_unknown_id_noop (s : ModalStore) (i : String)
    (p : Option Resolved) (v : Resolved) (habs : ∀ e ∈ s.modals, e.id ≠ i) :
    s.pop i p = s ∧ s.resolveEntry i v = s ∧ (s.pop i p).pop i p = s := by
  have hnone := popFirst_of_not_mem habs
  have h1 : s.pop i p = s := by simp only [ModalStore.pop, hnone]
  refine ⟨h1, ?_, by rw [h1, h1]⟩
  simp only [ModalStore.resolveEntry, ModalStore.pop, hnone]

/-- C7: the stack preserves insertion order — pushing entries with ids
`a`, `b`, `c` (pairwise distinct as pushed) yields observed stack order
`[a, b, c]`, and then popping `b` yields `[a, c]` with the relative order of
the remaining entries unchanged. -/
theorem claim7_stack_order (a b c : String) (ca cb cc : Nat)
    (pa pb pc : List (String × String)) (hab : a ≠ b) (_hbc : b ≠ c)
    (p : Option Resolved) :
    (((createModalStore.push ⟨some a, ca, pa⟩).2.push ⟨some b, cb, pb⟩).2.push
        ⟨some c, cc, pc⟩).2.modals.map (fun e => e.id) = [a, b, c] ∧
    ((((createModalStore.push ⟨some a, ca, pa⟩).2.push ⟨some b, cb, pb⟩).2.push
        ⟨some c, cc, pc⟩).2.pop b p).modals.map (fun e => e.id) = [a, c] := by
  constructor
  · simp [createModalStore, ModalStore.push]
  · simp [createModalStore, ModalStore.push, ModalStore.pop, popFirst, hab]

/-- C8: for every handle returned by `push`, every invocation of the handle's
`resolve()` accessor returns the same promise object — the promise of the
broker created by that push — and never a new promise per call. -/
theorem claim8_resolve_same_promise (s : ModalStore) (input : ModalPushInput)
    (m n : Nat) :
    (s.push input).1.resolve m = (s.push input).1.resolve n ∧
    (s.push input).1.resolve m = s.brokers.length := by
  cases hinp : input.id <;>
    simp [ModalStore.push, hinp, ModalPushOutput.resolve]

/-- C9: popping (or resolving) one entry leaves every other entry unchanged:
in any state satisfying the stack/broker invariant, an entry `eB` whose id is
not the popped one stays in the stack and its broker stays pending. -/
theorem claim9_pop_frame (s : ModalStore) (i : String) (p : Option Resolved)
    (eB : ModalEntry) (hinv : BrokerInv s) (hB : eB ∈ s.modals)
    (hid : eB.id ≠ i) :
    eB ∈ (s.pop i p).modals ∧
    (s.pop i p).brokers[eB.brokerRef]? = some Broker.pending := by
  obtain ⟨hpend, hnd⟩ := hinv
  unfold ModalStore.pop
  rcases hp : popFirst s.modals i with ⟨found, rest⟩
  cases found with
  | none => exact ⟨hB, hpend eB hB⟩
  | some e =>
    obtain ⟨l₁, l₂, hl, hr, hl₁, hide⟩ := popFirst_some hp
    have hBne : eB ≠ e := fun hc => hid (hc ▸ hide)
    have hBrest : eB ∈ rest := by
      rw [hr]
      rw [hl] at hB
      rcases List.mem_append.mp hB with hm | hm
      · exact List.mem_append_left _ hm
      · rcases List.mem_cons.mp hm with hm' | hm'
        · exact absurd hm' hBne
        · exact List.mem_append_right _ hm'
    have hne : eB.brokerRef ≠ e.brokerRef := by
      have hmid : (l₁.map (fun e => e.brokerRef) ++ e.brokerRef ::
          l₂.map (fun e => e.brokerRef)).Nodup := by
        rw [hl] at hnd
        simpa using hnd
      obtain ⟨hnotmem, -⟩ := List.nodup_cons.mp (List.nodup_middle.mp hmid)
      intro hc
      refine hnotmem ?_
      rw [← hc]
      have hBl : eB ∈ l₁ ++ l₂ := hr ▸ hBrest
      rcases List.mem_append.mp hBl with hm | hm
      · exact List.mem_append_left _ (List.mem_map.mpr ⟨eB, hm, rfl⟩)
      · exact List.mem_append_right _ (List.mem_map.mpr ⟨eB, hm, rfl⟩)
    refine ⟨hBrest, ?_⟩
    show (settleBroker s.brokers e.brokerRef
      (p.getD defaultPopResolved))[eB.brokerRef]? = some Broker.pending
    rw [settleBroker_getElem?_ne _ _ hne]
    exact hpend eB hB

/-- C10: every resolution payload delivered by a settlement in any reachable
state carries a `trigger` field drawn from the `ResolveTrigger` union (whose
members are exactly `ResolveTrigger.all`). -/
theorem claim10_settled_trigger_valid (ops : List Op) (r : Nat) (v : Resolved)
    (_hsett : (run createModalStore ops).brokers[r]? = some (Broker.settled v)) :
    v.trigger ∈ ResolveTrigger.all ∧
    ∀ t : ResolveTrigger, t ∈ ResolveTrigger.all := by
  refine ⟨?_, ?_⟩
  · cases hv : v.trigger <;> simp [ResolveTrigger.all]
  · intro t
    cases t <;> simp [ResolveTrigger.all]

/-! ## Concrete witnesses -/

/-- Witness for C1: push id `"a"`, pop it with an `escape`-tagged payload,
then attempt two further resolutions of the same id; the broker keeps the
first value. -/
theorem claim1_settle_at_most_once_witness :
    (run ((createModalStore.push ⟨some "a", 0, []⟩).2.pop "a"
        (some ⟨ResolveTrigger.escape, []⟩))
      [Op.pop "a" (some ⟨ResolveTrigger.backdrop, []⟩),
       Op.resolveEntry "a" ⟨ResolveTrigger.custom, []⟩]).brokers[
      (⟨"a", 0, [], 0⟩ : ModalEntry).brokerRef]? =
      some (Broker.settled ⟨ResolveTrigger.escape, []⟩) :=
  (claim1_settle_at_most_once (createModalStore.push ⟨some "a", 0, []⟩).2 "a"
    (some ⟨ResolveTrigger.escape, []⟩) ⟨"a", 0, [], 0⟩ [] (by decide) (by decide)
    [Op.pop "a" (some ⟨ResolveTrigger.backdrop, []⟩),
     Op.resolveEntry "a" ⟨ResolveTrigger.custom, []⟩]).1

/-- Witness for C2: after one auto-id push, the single active entry's broker
is pending. -/
theorem claim2_active_entries_unsettled_witness :
    (run createModalStore [Op.push ⟨none, 0, []⟩]).brokers[
      (⟨genId 0, 0, [], 0⟩ : ModalEntry).brokerRef]? = some Broker.pending :=
  (claim2_active_entries_unsettled [Op.push ⟨none, 0, []⟩]).1
    ⟨genId 0, 0, [], 0⟩ (by decide)

/-- Witness for C3 (resolution payload fidelity, P5): `resolveEntry("m1",
{trigger: custom, confirmed: true})` settles the broker with exactly that
payload. -/
theorem claim3_pop_settles_with_payload_witness :
    ((createModalStore.push ⟨some "m1", 0, []⟩).2.resolveEntry "m1"
        ⟨ResolveTrigger.custom, [("confirmed", "true")]⟩).brokers[
      (⟨"m1", 0, [], 0⟩ : ModalEntry).brokerRef]? =
      some (Broker.settled ⟨ResolveTrigger.custom, [("confirmed", "true")]⟩) :=
  (claim3_pop_settles_with_payload (createModalStore.push ⟨some "m1", 0, []⟩).2
    "m1" none ⟨ResolveTrigger.custom, [("confirmed", "true")]⟩ ⟨"m1", 0, [], 0⟩
    [] (by decide) (by decide) (by decide)).2.2

/-- Witness for C4: three auto-id pushes leave three pairwise-distinct ids. -/
theorem claim4_auto_ids_distinct_witness :
    ((run createModalStore [Op.push ⟨none, 0, []⟩, Op.push ⟨none, 1, []⟩,
      Op.push ⟨none, 2, []⟩]).modals.map (fun e => e.id)).Nodup :=
  claim4_auto_ids_distinct
    [Op.push ⟨none, 0, []⟩, Op.push ⟨none, 1, []⟩, Op.push ⟨none, 2, []⟩]
    (by decide)

/-- Witness for C5 (amended): `escape` is a valid tag and the outside-click
trigger does not carry the tag `click-outside`. -/
theorem claim5_trigger_tag_set_witness :
    ResolveTrigger.toTag ResolveTrigger.escape ∈
      ["backdrop", "x", "escape", "clickoutside", "pop", "custom"] ∧
    ResolveTrigger.toTag ResolveTrigger.clickoutside ≠ "click-outside" :=
  ⟨claim5_trigger_tag_set.1 ResolveTrigger.escape,
   claim5_trigger_tag_set.2.2 ResolveTrigger.clickoutside⟩

/-- Witness for C6: popping the unknown id `"a"` on a store holding only
`"b"` leaves the store unchanged. -/
theorem claim6_unknown_id_noop_witness :
    (createModalStore.push ⟨some "b", 0, []⟩).2.pop "a" none =
      (createModalStore.push ⟨some "b", 0, []⟩).2 :=
  (claim6_unknown_id_noop (createModalStore.push ⟨some "b", 0, []⟩).2 "a" none
    ⟨ResolveTrigger.custom, []⟩ (by decide)).1

/-- Witness for C7: pushing ids `"A"`, `"B"`, `"C"` then popping `"B"`. -/
theorem claim7_stack_order_witness :
    (((createModalStore.push ⟨some "A", 0, []⟩).2.push ⟨some "B", 1, []⟩).2.push
        ⟨some "C", 2, []⟩).2.modals.map (fun e => e.id) = ["A", "B", "C"] ∧
    ((((createModalStore.push ⟨some "A", 0, []⟩).2.push ⟨some "B", 1, []⟩).2.push
        ⟨some "C", 2, []⟩).2.pop "B" none).modals.map (fun e => e.id) =
      ["A", "C"] :=
  claim7_stack_order "A" "B" "C" 0 1 2 [] [] [] (by decide) (by decide) none

/-- Witness for C9: with `"a"` and `"b"` active, popping `"a"` leaves `"b"`
in the stack with its broker still pending. -/
theorem claim9_pop_frame_witness :
    (⟨"b", 1, [], 1⟩ : ModalEntry) ∈
      (((createModalStore.push ⟨some "a", 0, []⟩).2.push ⟨some "b", 1, []⟩).2.pop
        "a" none).modals ∧
    (((createModalStore.push ⟨some "a", 0, []⟩).2.push ⟨some "b", 1, []⟩).2.pop
        "a" none).brokers[(⟨"b", 1, [], 1⟩ : ModalEntry).brokerRef]? =
      some Broker.pending :=
  claim9_pop_frame
    ((createModalStore.push ⟨some "a", 0, []⟩).2.push ⟨some "b", 1, []⟩).2
    "a" none ⟨"b", 1, [], 1⟩ (by decide) (by decide) (by decide)

/-- Witness for C10: after an auto-id push and a programmatic pop, the settled
value's trigger (`pop`) is in the `ResolveTrigger` range. -/
theorem claim10_settled_trigger_valid_witness :
    (⟨ResolveTrigger.pop, []⟩ : Resolved).trigger ∈ ResolveTrigger.all :=
  (claim10_settled_trigger_valid
    [Op.push ⟨none, 0, []⟩, Op.pop (genId 0) none] 0 ⟨ResolveTrigger.pop, []⟩
    (by decide)).1

end SveltePutModal
